import Mathlib

/-!
Shallow embedding of the voxel post-processing layer of the map generator
(`src/mapgen.cpp`): ground-level scanning and heightmap maintenance,
liquid-interface detection, the lighting engine (sun shafting plus recursive
flood-fill spread), and the generic `GenElementManager` id/name registry.

Coordinates (C++ `s16`) are modelled as `Int`; the 8-bit `param1` light field
and content ids are modelled as `Nat`, with `% 16` standing for the `& 0x0F`
masks the code applies.  The voxel buffer (`vm->m_data` addressed through
`vm->m_area`) is modelled as a total function from positions to nodes, and
in-place mutation as function override.
-/

/-- `v3s16`: a 3-component vector of (here unbounded) integer coordinates. -/
structure v3s16 where
  X : Int
  Y : Int
  Z : Int
deriving DecidableEq, Repr

/-- A map node: `param0` content/type id plus the `param1` light byte.
Other payload fields of the C++ `MapNode` are irrelevant to this layer. -/
structure Node where
  content : Nat
  param1 : Nat
deriving DecidableEq, Repr

/-- The per-content-id properties the lighting/scanning code reads from
`ndef->get(n)`. -/
structure ContentFeatures where
  walkable : Bool
  light_propagates : Bool
  sunlight_propagates : Bool
  light_source : Nat
  isLiquid : Bool
deriving DecidableEq, Repr

/-- The read-only node-definition table, keyed by content id. -/
def NodeDef : Type := Nat → ContentFeatures

/-- The voxel buffer: node stored at each position. -/
def World : Type := v3s16 → Node

/-- `CONTENT_IGNORE`: the "unknown / not generated" sentinel content id. -/
def CONTENT_IGNORE : Nat := 127

/-- `LIGHT_SUN`: the light level of sunlight. -/
def LIGHT_SUN : Nat := 15

/-- `vm->m_data[vi].param1 = v` as a functional update of the buffer. -/
def setParam1 (w : World) (p : v3s16) (v : Nat) : World :=
  fun q => if q = p then { w p with param1 := v } else w q

/-- `VoxelArea a(nmin, nmax)`: an axis-aligned box of node positions. -/
structure VoxelArea where
  MinEdge : v3s16
  MaxEdge : v3s16

/-- `VoxelArea::contains(p)`: componentwise box membership. -/
def VoxelArea.contains (a : VoxelArea) (p : v3s16) : Bool :=
  decide (a.MinEdge.X ≤ p.X) && decide (p.X ≤ a.MaxEdge.X) &&
  decide (a.MinEdge.Y ≤ p.Y) && decide (p.Y ≤ a.MaxEdge.Y) &&
  decide (a.MinEdge.Z ≤ p.Z) && decide (p.Z ≤ a.MaxEdge.Z)

/-- The ascending list of integers `lo, lo+1, …, hi` (empty when `hi < lo`);
used to model the `for` loops over coordinate ranges. -/
def intRange (lo hi : Int) : List Int :=
  (List.range (hi + 1 - lo).toNat).map (fun (n : Nat) => lo + (n : Int))

/-- The body of the downward scan shared by `findGroundLevelFull` and
`findGroundLevel`: starting at `y` with `fuel` iterations left
(`fuel = ymax - ymin + 1` at the call site), return the first `y` whose node
is walkable; when the loop exhausts, return the final loop variable value. -/
def findGroundLevelLoop (d : NodeDef) (w : World) (x z : Int) : Nat → Int → Int
  | 0, y => y
  | fuel + 1, y =>
    if (d (w ⟨x, y, z⟩).content).walkable then y
    else findGroundLevelLoop d w x z fuel (y - 1)

/-- `Mapgen::findGroundLevel(p2d, ymin, ymax)`: scan `[ymin, ymax]` downward
for the first walkable node; the raw loop variable (`ymin - 1` on a failed
nonempty scan) is returned unchecked. -/
def findGroundLevel (d : NodeDef) (w : World) (x z : Int) (ymin ymax : Int) : Int :=
  findGroundLevelLoop d w x z (ymax + 1 - ymin).toNat ymax

/-- `Mapgen::findGroundLevelFull(p2d)`: scan the buffer's full vertical extent
`[y_nodes_min, y_nodes_max]`, and map any not-found loop value below
`y_nodes_min` to the explicit `y_nodes_min - 1` sentinel. -/
def findGroundLevelFull (d : NodeDef) (w : World) (x z : Int)
    (y_nodes_min y_nodes_max : Int) : Int :=
  let y := findGroundLevelLoop d w x z (y_nodes_max + 1 - y_nodes_min).toNat y_nodes_max
  if y_nodes_min ≤ y then y else y_nodes_min - 1

/-- The heightmap: topmost walkable `Y` stored per `(x, z)` column. -/
def Heightmap : Type := Int × Int → Int

/-- One column step of `Mapgen::updateHeightmap`: rescan the column over
`[nmin.Y, nmax.Y]` and store the result, except that the old entry is kept
when the scan stopped at the top edge with the old entry above the range, or
when the scan found nothing with the old entry below the range. -/
def updateHeightmapCol (d : NodeDef) (w : World) (hm : Heightmap)
    (nmin nmax : v3s16) (x z : Int) : Heightmap :=
  let y := findGroundLevel d w x z nmin.Y nmax.Y
  if y = nmax.Y ∧ hm (x, z) > nmax.Y then hm
  else if y = nmin.Y - 1 ∧ hm (x, z) < nmin.Y then hm
  else fun q => if q = (x, z) then y else hm q

/-- `Mapgen::updateHeightmap(nmin, nmax)` (with a heightmap attached):
apply the column rule to every `(x, z)` of the region footprint. -/
def updateHeightmap (d : NodeDef) (w : World) (hm : Heightmap)
    (nmin nmax : v3s16) : Heightmap :=
  (intRange nmin.Z nmax.Z).foldl (fun hz z =>
    (intRange nmin.X nmax.X).foldl (fun hx x =>
      updateHeightmapCol d w hx nmin nmax x z) hz) hm

/-- The per-column trust rule of `updateHeightmap`, as a value transformer on
the column's old entry (used to state what the region fold does per column). -/
def heightmapRule (d : NodeDef) (w : World) (nmin nmax : v3s16)
    (x z : Int) (old : Int) : Int :=
  let y := findGroundLevel d w x z nmin.Y nmax.Y
  if y = nmax.Y ∧ old > nmax.Y then old
  else if y = nmin.Y - 1 ∧ old < nmin.Y then old
  else y

/-- The inner column loop of `Mapgen::updateLiquid`: scan `fuel` nodes
downward from `y`, and emit the position each time the liquid classification
differs from the previous (`Y + 1`) node's; `wasliquid` starts `true` at the
top of each column.  The emitted positions (all distinct) model the
`push_back`s into the caller's `UniqueQueue`. -/
def updateLiquidColumn (d : NodeDef) (w : World) (x z : Int) :
    Nat → Int → Bool → List v3s16
  | 0, _, _ => []
  | fuel + 1, y, wasliquid =>
    let isliquid := (d (w ⟨x, y, z⟩).content).isLiquid
    (if isliquid ≠ wasliquid then [⟨x, y, z⟩] else []) ++
      updateLiquidColumn d w x z fuel (y - 1) isliquid

/-- `Mapgen::updateLiquid(trans_liquid, nmin, nmax)`: run the column scan over
every `(x, z)` of the region, concatenating the emitted positions in loop
order. -/
def updateLiquid (d : NodeDef) (w : World) (nmin nmax : v3s16) : List v3s16 :=
  (intRange nmin.Z nmax.Z).foldl (fun acc z =>
    (intRange nmin.X nmax.X).foldl (fun acc2 x =>
      acc2 ++ updateLiquidColumn d w x z (nmax.Y + 1 - nmin.Y).toNat nmax.Y true) acc) []

/-- `Mapgen::setLighting(nmin, nmax, light)`: overwrite `param1` of every node
of the region with `light`, by the same `z`/`y`/`x` loop nest as the source. -/
def setLighting (w : World) (nmin nmax : v3s16) (light : Nat) : World :=
  (intRange nmin.Z nmax.Z).foldl (fun wz z =>
    (intRange nmin.Y nmax.Y).foldl (fun wy y =>
      (intRange nmin.X nmax.X).foldl (fun wx x =>
        setParam1 wx ⟨x, y, z⟩ light) wy) wz) w

/-- `Mapgen::lightSpread(a, p, light)`: recursive flood fill.  Return if the
budget is ≤ 1 or `p` is outside the area; decrement the budget; return if the
decremented value is not strictly brighter than the target or the target does
not propagate light; otherwise write it and recurse into the six axis
neighbors (in the source's `+Z, +Y, +X, -Z, -Y, -X` order) with the written
value as the new budget.  The recursion is structural in the light budget. -/
def lightSpread (a : VoxelArea) (d : NodeDef) : World → v3s16 → Nat → World
  | w, _, 0 => w
  | w, p, light + 1 =>
    if light + 1 ≤ 1 ∨ a.contains p = false then w
    else
      let nn := w p
      if light ≤ nn.param1 ∨ (d nn.content).light_propagates = false then w
      else
        let w1 := setParam1 w p light
        let w2 := lightSpread a d w1 ⟨p.X, p.Y, p.Z + 1⟩ light
        let w3 := lightSpread a d w2 ⟨p.X, p.Y + 1, p.Z⟩ light
        let w4 := lightSpread a d w3 ⟨p.X + 1, p.Y, p.Z⟩ light
        let w5 := lightSpread a d w4 ⟨p.X, p.Y, p.Z - 1⟩ light
        let w6 := lightSpread a d w5 ⟨p.X, p.Y - 1, p.Z⟩ light
        lightSpread a d w6 ⟨p.X - 1, p.Y, p.Z⟩ light

/-- `lightSpread` with an explicit recursion-depth budget `fuel`, decremented
at every call regardless of the light value (returning the buffer unchanged on
exhaustion); used to express that the recursion depth of `lightSpread` is
bounded by the initial light value. -/
def lightSpreadFuel (a : VoxelArea) (d : NodeDef) : Nat → World → v3s16 → Nat → World
  | 0, w, _, _ => w
  | _ + 1, w, _, 0 => w
  | fuel + 1, w, p, light + 1 =>
    if light + 1 ≤ 1 ∨ a.contains p = false then w
    else
      let nn := w p
      if light ≤ nn.param1 ∨ (d nn.content).light_propagates = false then w
      else
        let w1 := setParam1 w p light
        let w2 := lightSpreadFuel a d fuel w1 ⟨p.X, p.Y, p.Z + 1⟩ light
        let w3 := lightSpreadFuel a d fuel w2 ⟨p.X, p.Y + 1, p.Z⟩ light
        let w4 := lightSpreadFuel a d fuel w3 ⟨p.X + 1, p.Y, p.Z⟩ light
        let w5 := lightSpreadFuel a d fuel w4 ⟨p.X, p.Y, p.Z - 1⟩ light
        let w6 := lightSpreadFuel a d fuel w5 ⟨p.X, p.Y - 1, p.Z⟩ light
        lightSpreadFuel a d fuel w6 ⟨p.X - 1, p.Y, p.Z⟩ light

/-- The descending inner loop of `calcLighting`'s sun-shafting stage: from `y`
downward while nodes propagate sunlight, assign `LIGHT_SUN`; break at the
first node that does not. -/
def sunDescend (d : NodeDef) (x z : Int) : World → Nat → Int → World
  | w, 0, _ => w
  | w, fuel + 1, y =>
    let n := w ⟨x, y, z⟩
    if (d n.content).sunlight_propagates = false then w
    else sunDescend d x z (setParam1 w ⟨x, y, z⟩ LIGHT_SUN) fuel (y - 1)

/-- One column of `calcLighting`'s sun-shafting stage: inspect the node one
above the region top; on `CONTENT_IGNORE` proceed only if the block is not
underground (`water_level >= nmax.Y`), otherwise proceed only if that node
already carries full sunlight; when proceeding, run the downward assignment
over `[nmin.Y, nmax.Y]`. -/
def sunColumn (d : NodeDef) (water_level : Int) (w : World)
    (nmin nmax : v3s16) (x z : Int) : World :=
  let above := w ⟨x, nmax.Y + 1, z⟩
  if above.content = CONTENT_IGNORE then
    if water_level ≥ nmax.Y then w
    else sunDescend d x z w (nmax.Y + 1 - nmin.Y).toNat nmax.Y
  else if above.param1 % 16 ≠ LIGHT_SUN then w
  else sunDescend d x z w (nmax.Y + 1 - nmin.Y).toNat nmax.Y

/-- The sun-shafting stage of `calcLighting`: the `z`/`x` loop nest over
`sunColumn`. -/
def sunPhase (d : NodeDef) (water_level : Int) (w : World)
    (nmin nmax : v3s16) : World :=
  (intRange nmin.Z nmax.Z).foldl (fun wz z =>
    (intRange nmin.X nmax.X).foldl (fun wx x =>
      sunColumn d water_level wx nmin nmax x z) wz) w

/-- One node of `calcLighting`'s emission-and-spread sweep: skip
`CONTENT_IGNORE` and non-light-propagating nodes; overwrite `param1` with the
node's own (masked) light source level when nonzero; then, if the node's
masked light is nonzero, spread `light - 1` into the six axis neighbors. -/
def spreadAtNode (a : VoxelArea) (d : NodeDef) (w : World) (p : v3s16) : World :=
  let n := w p
  if n.content = CONTENT_IGNORE ∨ (d n.content).light_propagates = false then w
  else
    let light_produced := (d n.content).light_source % 16
    let w1 := if light_produced ≠ 0 then setParam1 w p light_produced else w
    let light := (w1 p).param1 % 16
    if light ≠ 0 then
      let w2 := lightSpread a d w1 ⟨p.X, p.Y, p.Z + 1⟩ (light - 1)
      let w3 := lightSpread a d w2 ⟨p.X, p.Y + 1, p.Z⟩ (light - 1)
      let w4 := lightSpread a d w3 ⟨p.X + 1, p.Y, p.Z⟩ (light - 1)
      let w5 := lightSpread a d w4 ⟨p.X, p.Y, p.Z - 1⟩ (light - 1)
      let w6 := lightSpread a d w5 ⟨p.X, p.Y - 1, p.Z⟩ (light - 1)
      lightSpread a d w6 ⟨p.X - 1, p.Y, p.Z⟩ (light - 1)
    else w1

/-- The emission-and-spread stage of `calcLighting`: the `z`/`y`/`x` loop nest
over `spreadAtNode`. -/
def spreadPhase (a : VoxelArea) (d : NodeDef) (w : World)
    (nmin nmax : v3s16) : World :=
  (intRange nmin.Z nmax.Z).foldl (fun wz z =>
    (intRange nmin.Y nmax.Y).foldl (fun wy y =>
      (intRange nmin.X nmax.X).foldl (fun wx x =>
        spreadAtNode a d wx ⟨x, y, z⟩) wy) wz) w

/-- `Mapgen::calcLighting(nmin, nmax)`: sun shafting over the whole region,
then the emission-and-spread sweep. -/
def calcLighting (d : NodeDef) (water_level : Int) (w : World)
    (nmin nmax : v3s16) : World :=
  let a : VoxelArea := ⟨nmin, nmax⟩
  spreadPhase a d (sunPhase d water_level w nmin nmax) nmin nmax

/-- A `GenElement`: display name plus the id the registry assigns at
insertion. -/
structure GenElement where
  name : String
  id : Nat
deriving DecidableEq, Repr

/-- `GenElementManager`: the slot table (`NULL` = empty slot) and the
subclass's `ELEMENT_LIMIT` capacity constant. -/
structure GenElementManager where
  elements : List (Option GenElement)
  limit : Nat

/-- The first-`NULL`-slot scan of `GenElementManager::add`. -/
def firstNoneIdx : List (Option GenElement) → Option Nat
  | [] => none
  | none :: _ => some 0
  | some _ :: rest => (firstNoneIdx rest).map (· + 1)

/-- `(u32)(-1)`: the overflow sentinel `GenElementManager::add` returns when
the capacity limit is reached. -/
def U32_MINUS_ONE : Nat := 4294967295

/-- `GenElementManager::add(elem)`: reuse the first empty slot if any
(assigning the slot index as the element's id); otherwise append, unless the
table already holds `ELEMENT_LIMIT` elements, in which case return `-1` (as
`u32`) and leave the table unchanged. -/
def GenElementManager.add (m : GenElementManager) (elem : GenElement) :
    GenElementManager × Nat :=
  match firstNoneIdx m.elements with
  | some i => ({ m with elements := m.elements.set i (some { elem with id := i }) }, i)
  | none =>
    if m.elements.length ≥ m.limit then (m, U32_MINUS_ONE)
    else
      ({ m with elements := m.elements ++ [some { elem with id := m.elements.length }] },
        m.elements.length)

/-- `GenElementManager::get(id)`: bounds-checked slot lookup (an out-of-range
id and an empty slot both yield `NULL`). -/
def GenElementManager.get (m : GenElementManager) (id : Nat) : Option GenElement :=
  m.elements.getD id none

/-- The scan loop of `GenElementManager::getByName`: first occupied slot whose
element's name matches, in slot order. -/
def getByNameLoop (name : String) : List (Option GenElement) → Option GenElement
  | [] => none
  | none :: rest => getByNameLoop name rest
  | some e :: rest => if e.name = name then some e else getByNameLoop name rest

/-- `GenElementManager::getByName(name)`. -/
def GenElementManager.getByName (m : GenElementManager) (name : String) :
    Option GenElement :=
  getByNameLoop name m.elements

/-- `GenElementManager::update(id, elem)`: bounds-checked slot replacement
returning the previous occupant (`NULL` when out of range). -/
def GenElementManager.update (m : GenElementManager) (id : Nat)
    (elem : Option GenElement) : GenElementManager × Option GenElement :=
  if h : id < m.elements.length then
    ({ m with elements := m.elements.set id elem }, m.elements.get ⟨id, h⟩)
  else (m, none)

/-- `GenElementManager::remove(id) = update(id, NULL)`. -/
def GenElementManager.remove (m : GenElementManager) (id : Nat) :
    GenElementManager × Option GenElement :=
  m.update id none

/-- What a ground scan over `[ymin, ymax]` is supposed to deliver: either the
topmost walkable `Y` of the range, or the `ymin - 1` sentinel when the range
holds no walkable node. -/
def groundScanSpec (d : NodeDef) (w : World) (x z ymin ymax r : Int) : Prop :=
  ((d (w ⟨x, r, z⟩).content).walkable = true ∧ ymin ≤ r ∧ r ≤ ymax ∧
    ∀ y', r < y' → y' ≤ ymax → (d (w ⟨x, y', z⟩).content).walkable = false) ∨
  (r = ymin - 1 ∧ ∀ y', ymin ≤ y' → y' ≤ ymax → (d (w ⟨x, y', z⟩).content).walkable = false)

/-- Whether the nodes of column `(x, z)` at heights `[ylo, yhi]` all propagate
sunlight. -/
def propagatesUpTo (d : NodeDef) (w : World) (x z ylo yhi : Int) : Bool :=
  (intRange ylo yhi).all (fun y' => (d (w ⟨x, y', z⟩).content).sunlight_propagates)

/-- Whether the sun-shaft stage enters column `(x, z)` at all: the node one
above the region top is `CONTENT_IGNORE` with the block not underground, or a
concrete node already carrying full sunlight. -/
def sunOpenCond (water_level : Int) (w : World) (nmax : v3s16) (x z : Int) : Bool :=
  let above := w ⟨x, nmax.Y + 1, z⟩
  if above.content = CONTENT_IGNORE then decide (water_level < nmax.Y)
  else decide (above.param1 % 16 = LIGHT_SUN)

/-- Whether the sun-shaft stage assigns `LIGHT_SUN` to position `q` when it
processes column `(x, z)`: the column is entered, `q` lies in the column
within the region's vertical range, and every node from `q` up to the region
top propagates sunlight. -/
def colLitB (d : NodeDef) (water_level : Int) (w : World) (nmin nmax : v3s16)
    (x z : Int) (q : v3s16) : Bool :=
  sunOpenCond water_level w nmax x z && decide (q.X = x) && decide (q.Z = z) &&
  decide (nmin.Y ≤ q.Y) && decide (q.Y ≤ nmax.Y) && propagatesUpTo d w x z q.Y nmax.Y

/-- The `(x, z)` pairs visited by a `z`-outer / `x`-inner loop nest. -/
def colPairs (zs xs : List Int) : List (Int × Int) :=
  zs.foldr (fun z acc => xs.map (fun x => (x, z)) ++ acc) []

/-- Whether any of the columns `ps` sun-lights position `q`. -/
def litAnyB (d : NodeDef) (water_level : Int) (w : World) (nmin nmax : v3s16)
    (ps : List (Int × Int)) (q : v3s16) : Bool :=
  ps.any (fun xz => colLitB d water_level w nmin nmax xz.1 xz.2 q)

/-- Overwrite `param1` with `LIGHT_SUN` exactly on the positions selected by
`S`. -/
def overlayLit (w : World) (S : v3s16 → Bool) : World :=
  fun q => if S q then { w q with param1 := LIGHT_SUN } else w q

/-- Concrete node-definition table for the witnesses and counterexamples:
content 1 is walkable ground, 2 is a liquid, 4 a plain light-propagating
node, and 3 / 5 / 6 are light-propagating sources of levels 2 / 15 / 5;
anything else (notably `CONTENT_IGNORE`) has every feature off. -/
def dEx : NodeDef := fun c =>
  if c = 1 then ⟨true, false, false, 0, false⟩
  else if c = 2 then ⟨false, false, false, 0, true⟩
  else if c = 3 then ⟨false, true, false, 2, false⟩
  else if c = 4 then ⟨false, true, false, 0, false⟩
  else if c = 5 then ⟨false, true, false, 15, false⟩
  else if c = 6 then ⟨false, true, false, 5, false⟩
  else ⟨false, false, false, 0, false⟩

/-- A buffer with walkable ground up to `Y = 3` and air above. -/
def wGround : World := fun q => if q.Y ≤ 3 then ⟨1, 0⟩ else ⟨0, 0⟩

/-- A buffer of nothing but air (non-walkable, non-liquid, inert). -/
def wAir : World := fun _ => ⟨0, 0⟩

/-- A buffer of nothing but liquid. -/
def wLiquid : World := fun _ => ⟨2, 0⟩

/-- A buffer of nothing but `CONTENT_IGNORE`. -/
def wIgnore : World := fun _ => ⟨CONTENT_IGNORE, 0⟩

/-- A buffer of nothing but plain light-propagating nodes, all dark. -/
def wProp : World := fun _ => ⟨4, 0⟩

/-- Counterexample buffer for the first-neighbor propagation step: a level-5
light source at the origin next to one plain propagating node, `CONTENT_IGNORE`
elsewhere. -/
def wC1 : World := fun q =>
  if q = ⟨0, 0, 0⟩ then ⟨6, 0⟩
  else if q = ⟨1, 0, 0⟩ then ⟨4, 0⟩
  else ⟨CONTENT_IGNORE, 0⟩

/-- Counterexample buffer for `calcLighting` idempotence: a level-2 source, a
plain propagating node and a level-15 source on a line, `CONTENT_IGNORE`
elsewhere. -/
def wC3 : World := fun q =>
  if q = ⟨0, 0, 0⟩ then ⟨3, 0⟩
  else if q = ⟨1, 0, 0⟩ then ⟨4, 0⟩
  else if q = ⟨2, 0, 0⟩ then ⟨5, 0⟩
  else ⟨CONTENT_IGNORE, 0⟩

/-- A heightmap whose every entry is 50. -/
def hm50 : Heightmap := fun _ => 50

/-- Registry elements for the slot-reuse scenario (the stored id field is
assigned by the registry, so the initial `99` is irrelevant). -/
def elemA : GenElement := ⟨"A", 99⟩

/-- Second element of the slot-reuse scenario. -/
def elemB : GenElement := ⟨"B", 99⟩

/-- Third element of the slot-reuse scenario. -/
def elemC : GenElement := ⟨"C", 99⟩

/-- Fourth element of the slot-reuse scenario. -/
def elemD : GenElement := ⟨"D", 99⟩

/-- The empty registry with capacity 8. -/
def mgr0 : GenElementManager := ⟨[], 8⟩

/-- Registry after adding A. -/
def mgr1 : GenElementManager := (mgr0.add elemA).1

/-- Registry after adding A, B. -/
def mgr2 : GenElementManager := (mgr1.add elemB).1

/-- Registry after adding A, B, C. -/
def mgr3 : GenElementManager := (mgr2.add elemC).1

/-- Registry after adding A, B, C and removing id 1. -/
def mgr4 : GenElementManager := (mgr3.remove 1).1

/-- Registry after adding A, B, C, removing id 1 and adding D. -/
def mgr5 : GenElementManager := (mgr4.add elemD).1

/-- A registry with one empty slot and capacity 1. -/
def mgrHole : GenElementManager := ⟨[none], 1⟩

/-- A registry full to its capacity of 1 with no empty slot. -/
def mgrFull : GenElementManager := ⟨[some ⟨"A", 0⟩], 1⟩

theorem mem_intRange {lo hi y : Int} : y ∈ intRange lo hi ↔ lo ≤ y ∧ y ≤ hi := by
  constructor
  · intro hy
    obtain ⟨n, hn, hny⟩ := List.mem_map.mp hy
    obtain hn' := List.mem_range.mp hn
    omega
  · intro hy
    exact List.mem_map.mpr ⟨(y - lo).toNat, List.mem_range.mpr (by omega), by omega⟩

theorem intRange_nodup (lo hi : Int) : (intRange lo hi).Nodup := by
  unfold intRange
  refine List.Nodup.map ?_ (List.nodup_range _)
  intro a b hab
  have hab' : lo + (a : Int) = lo + (b : Int) := hab
  omega

theorem findGroundLevelLoop_spec (d : NodeDef) (w : World) (x z : Int) :
    ∀ (fuel : Nat) (y : Int),
      (findGroundLevelLoop d w x z fuel y = y - fuel ∧
        ∀ y', y - fuel < y' → y' ≤ y → (d (w ⟨x, y', z⟩).content).walkable = false) ∨
      ((d (w ⟨x, findGroundLevelLoop d w x z fuel y, z⟩).content).walkable = true ∧
        y - fuel < findGroundLevelLoop d w x z fuel y ∧
        findGroundLevelLoop d w x z fuel y ≤ y ∧
        ∀ y', findGroundLevelLoop d w x z fuel y < y' → y' ≤ y →
          (d (w ⟨x, y', z⟩).content).walkable = false) := by
  intro fuel
  induction fuel with
  | zero =>
    intro y
    left
    have h0 : findGroundLevelLoop d w x z 0 y = y := rfl
    rw [h0]
    refine ⟨by omega, ?_⟩
    intro y' h1 h2
    exact absurd (lt_of_lt_of_le h1 h2) (by omega)
  | succ n ih =>
    intro y
    by_cases hw : (d (w ⟨x, y, z⟩).content).walkable = true
    · right
      have hstep : findGroundLevelLoop d w x z (n + 1) y = y := by
        simp [findGroundLevelLoop, hw]
      rw [hstep]
      refine ⟨hw, by omega, le_refl y, ?_⟩
      intro y' h1 h2
      exact absurd (lt_of_lt_of_le h1 h2) (lt_irrefl y)
    · have hw' : (d (w ⟨x, y, z⟩).content).walkable = false := by
        cases hb : (d (w ⟨x, y, z⟩).content).walkable
        · rfl
        · exact absurd hb hw
      have hstep : findGroundLevelLoop d w x z (n + 1) y =
          findGroundLevelLoop d w x z n (y - 1) := by
        simp [findGroundLevelLoop, hw']
      rw [hstep]
      rcases ih (y - 1) with ⟨heq, hall⟩ | ⟨hwk, h1, h2, hall⟩
      · left
        refine ⟨by omega, ?_⟩
        intro y' hy1 hy2
        by_cases hy : y' = y
        · exact hy ▸ hw'
        · exact hall y' (by omega) (by omega)
      · right
        refine ⟨hwk, by omega, by omega, ?_⟩
        intro y' hy1 hy2
        by_cases hy : y' = y
        · exact hy ▸ hw'
        · exact hall y' (by omega) (by omega)

/-- C6: over a nonempty range `[ymin, ymax]`, `findGroundLevel` returns the
topmost walkable `Y` of the range and `ymin - 1` when no node of the range is
walkable; `findGroundLevelFull` over the buffer's full vertical extent does
the same (its explicit not-found check produces the same `ymin - 1`
sentinel). -/
theorem findGroundLevel_sentinels (d : NodeDef) (w : World) (x z ymin ymax : Int)
    (h : ymin ≤ ymax) :
    groundScanSpec d w x z ymin ymax (findGroundLevel d w x z ymin ymax) ∧
    groundScanSpec d w x z ymin ymax (findGroundLevelFull d w x z ymin ymax) := by
  have hspec := findGroundLevelLoop_spec d w x z (ymax + 1 - ymin).toNat ymax
  unfold findGroundLevel findGroundLevelFull groundScanSpec
  rcases hspec with ⟨heq, hall⟩ | ⟨hwk, h1, h2, hall⟩
  · have heq' : findGroundLevelLoop d w x z (ymax + 1 - ymin).toNat ymax = ymin - 1 := by
      omega
    constructor
    · right
      exact ⟨heq', fun y' hy1 hy2 => hall y' (by omega) hy2⟩
    · right
      rw [heq', if_neg (by omega)]
      exact ⟨rfl, fun y' hy1 hy2 => hall y' (by omega) hy2⟩
  · constructor
    · left
      exact ⟨hwk, by omega, h2, hall⟩
    · left
      rw [if_pos (by omega)]
      exact ⟨hwk, by omega, h2, hall⟩

/-- Witness for C6: the scans on a column with ground at `Y = 3` over
`[0, 5]`. -/
theorem findGroundLevel_sentinels_witness :
    (0 : Int) ≤ 5 ∧
    (groundScanSpec dEx wGround 0 0 0 5 (findGroundLevel dEx wGround 0 0 0 5) ∧
      groundScanSpec dEx wGround 0 0 0 5 (findGroundLevelFull dEx wGround 0 0 0 5)) :=
  ⟨by omega, findGroundLevel_sentinels dEx wGround 0 0 0 5 (by omega)⟩

theorem updateLiquidColumn_const (d : NodeDef) (w : World) (x z : Int) (b : Bool) :
    ∀ (fuel : Nat) (y : Int),
      (∀ y', y - fuel < y' → y' ≤ y → (d (w ⟨x, y', z⟩).content).isLiquid = b) →
      updateLiquidColumn d w x z fuel y b = [] := by
  intro fuel
  induction fuel with
  | zero =>
    intro y _
    rfl
  | succ n ih =>
    intro y hall
    have hy : (d (w ⟨x, y, z⟩).content).isLiquid = b := hall y (by omega) (le_refl y)
    have hstep : updateLiquidColumn d w x z (n + 1) y b =
        updateLiquidColumn d w x z n (y - 1) b := by
      simp [updateLiquidColumn, hy]
    rw [hstep]
    exact ih (y - 1) (fun y' h1 h2 => hall y' (by omega) (by omega))

/-- C4: in `updateLiquid`'s column scan over a nonempty range, a non-liquid
topmost node always records a transition at the top `Y` (the initial
"was liquid" state is `true`); a uniformly non-liquid column records exactly
that one transition, and a uniformly liquid column records none. -/
theorem updateLiquidColumn_parity (d : NodeDef) (w : World) (x z ymin ymax : Int)
    (h : ymin ≤ ymax) :
    ((d (w ⟨x, ymax, z⟩).content).isLiquid = false →
      ∃ rest, updateLiquidColumn d w x z (ymax + 1 - ymin).toNat ymax true =
        ⟨x, ymax, z⟩ :: rest) ∧
    ((∀ y', ymin ≤ y' → y' ≤ ymax → (d (w ⟨x, y', z⟩).content).isLiquid = false) →
      updateLiquidColumn d w x z (ymax + 1 - ymin).toNat ymax true = [⟨x, ymax, z⟩]) ∧
    ((∀ y', ymin ≤ y' → y' ≤ ymax → (d (w ⟨x, y', z⟩).content).isLiquid = true) →
      updateLiquidColumn d w x z (ymax + 1 - ymin).toNat ymax true = []) := by
  obtain ⟨k, hk⟩ : ∃ k, (ymax + 1 - ymin).toNat = k + 1 := ⟨(ymax - ymin).toNat, by omega⟩
  refine ⟨?_, ?_, ?_⟩
  · intro htop
    have hstep : updateLiquidColumn d w x z (k + 1) ymax true =
        ⟨x, ymax, z⟩ :: updateLiquidColumn d w x z k (ymax - 1) false := by
      simp [updateLiquidColumn, htop]
    rw [hk, hstep]
    exact ⟨_, rfl⟩
  · intro hall
    have htop : (d (w ⟨x, ymax, z⟩).content).isLiquid = false :=
      hall ymax h (le_refl ymax)
    have hstep : updateLiquidColumn d w x z (k + 1) ymax true =
        ⟨x, ymax, z⟩ :: updateLiquidColumn d w x z k (ymax - 1) false := by
      simp [updateLiquidColumn, htop]
    rw [hk, hstep,
      updateLiquidColumn_const d w x z false k (ymax - 1)
        (fun y' h1 h2 => hall y' (by omega) (by omega))]
  · intro hall
    exact updateLiquidColumn_const d w x z true _ ymax
      (fun y' h1 h2 => hall y' (by omega) h2)

/-- Witness for C4: an all-air column over `[0, 2]` emits exactly its top
position, an all-liquid column emits nothing. -/
theorem updateLiquidColumn_parity_witness :
    updateLiquidColumn dEx wAir 0 0 ((2 : Int) + 1 - 0).toNat 2 true = [⟨0, 2, 0⟩] ∧
    updateLiquidColumn dEx wLiquid 0 0 ((2 : Int) + 1 - 0).toNat 2 true = [] :=
  ⟨(updateLiquidColumn_parity dEx wAir 0 0 0 2 (by omega)).2.1 (fun y' _ _ => rfl),
   (updateLiquidColumn_parity dEx wLiquid 0 0 0 2 (by omega)).2.2 (fun y' _ _ => rfl)⟩

theorem foldl_overlay {α : Type} (P : α → v3s16 → Bool) (v : Nat)
    (g : World → α → World)
    (hg : ∀ w i q, g w i q = if P i q then { w q with param1 := v } else w q) :
    ∀ (xs : List α) (w : World) (q : v3s16),
      (xs.foldl g w) q =
        if xs.any (fun i => P i q) then { w q with param1 := v } else w q := by
  intro xs
  induction xs with
  | nil =>
    intro w q
    simp
  | cons i xs ih =>
    intro w q
    rw [List.foldl_cons, ih, hg]
    cases hP : P i q <;> cases hA : xs.any (fun j => P j q) <;>
      simp [List.any_cons, hP, hA]

/-- C10: `setLighting` overwrites the light field of exactly the nodes inside
the region with the given value, preserving their content and leaving every
node outside the region entirely unchanged. -/
theorem setLighting_frame (w : World) (nmin nmax : v3s16) (light : Nat) (q : v3s16) :
    setLighting w nmin nmax light q =
      if (⟨nmin, nmax⟩ : VoxelArea).contains q then { w q with param1 := light }
      else w q := by
  unfold setLighting
  have hgx : ∀ (y z : Int) (w' : World) (x : Int) (q' : v3s16),
      setParam1 w' ⟨x, y, z⟩ light q' =
        if decide (q' = ⟨x, y, z⟩) then { w' q' with param1 := light } else w' q' := by
    intro y z w' x q'
    unfold setParam1
    by_cases h : q' = ⟨x, y, z⟩
    · subst h
      simp
    · simp [h]
  have hx : ∀ (y z : Int) (w' : World) (q' : v3s16),
      ((intRange nmin.X nmax.X).foldl (fun wx x => setParam1 wx ⟨x, y, z⟩ light) w') q' =
        if (intRange nmin.X nmax.X).any (fun x => decide (q' = ⟨x, y, z⟩)) then
          { w' q' with param1 := light }
        else w' q' :=
    fun y z w' q' =>
      foldl_overlay (fun x q' => decide (q' = ⟨x, y, z⟩)) light _ (hgx y z)
        (intRange nmin.X nmax.X) w' q'
  have hy : ∀ (z : Int) (w' : World) (q' : v3s16),
      ((intRange nmin.Y nmax.Y).foldl (fun wy y =>
          (intRange nmin.X nmax.X).foldl (fun wx x => setParam1 wx ⟨x, y, z⟩ light) wy) w') q' =
        if (intRange nmin.Y nmax.Y).any (fun y =>
            (intRange nmin.X nmax.X).any (fun x => decide (q' = ⟨x, y, z⟩))) then
          { w' q' with param1 := light }
        else w' q' :=
    fun z w' q' =>
      foldl_overlay (fun y q' => (intRange nmin.X nmax.X).any
          (fun x => decide (q' = ⟨x, y, z⟩))) light _
        (fun w'' y q'' => hx y z w'' q'') (intRange nmin.Y nmax.Y) w' q'
  have hz : ∀ (w' : World) (q' : v3s16),
      ((intRange nmin.Z nmax.Z).foldl (fun wz z =>
          (intRange nmin.Y nmax.Y).foldl (fun wy y =>
            (intRange nmin.X nmax.X).foldl (fun wx x => setParam1 wx ⟨x, y, z⟩ light) wy) wz) w') q' =
        if (intRange nmin.Z nmax.Z).any (fun z =>
            (intRange nmin.Y nmax.Y).any (fun y =>
              (intRange nmin.X nmax.X).any (fun x => decide (q' = ⟨x, y, z⟩)))) then
          { w' q' with param1 := light }
        else w' q' :=
    fun w' q' =>
      foldl_overlay (fun z q' => (intRange nmin.Y nmax.Y).any (fun y =>
          (intRange nmin.X nmax.X).any (fun x => decide (q' = ⟨x, y, z⟩)))) light _
        (fun w'' z q'' => hy z w'' q'') (intRange nmin.Z nmax.Z) w' q'
  rw [hz w q]
  obtain ⟨qx, qy, qz⟩ := q
  have hcond : ((intRange nmin.Z nmax.Z).any (fun z =>
      (intRange nmin.Y nmax.Y).any (fun y =>
        (intRange nmin.X nmax.X).any (fun x => decide ((⟨qx, qy, qz⟩ : v3s16) = ⟨x, y, z⟩))))) =
      (⟨nmin, nmax⟩ : VoxelArea).contains ⟨qx, qy, qz⟩ := by
    by_cases hc : nmin.X ≤ qx ∧ qx ≤ nmax.X ∧ nmin.Y ≤ qy ∧ qy ≤ nmax.Y ∧
        nmin.Z ≤ qz ∧ qz ≤ nmax.Z
    · have h1 : ((intRange nmin.Z nmax.Z).any (fun z =>
          (intRange nmin.Y nmax.Y).any (fun y =>
            (intRange nmin.X nmax.X).any (fun x =>
              decide ((⟨qx, qy, qz⟩ : v3s16) = ⟨x, y, z⟩))))) = true := by
        refine List.any_eq_true.mpr ⟨qz, mem_intRange.mpr ⟨hc.2.2.2.2.1, hc.2.2.2.2.2⟩, ?_⟩
        refine List.any_eq_true.mpr ⟨qy, mem_intRange.mpr ⟨hc.2.2.1, hc.2.2.2.1⟩, ?_⟩
        refine List.any_eq_true.mpr ⟨qx, mem_intRange.mpr ⟨hc.1, hc.2.1⟩, ?_⟩
        simp
      have h2 : (⟨nmin, nmax⟩ : VoxelArea).contains ⟨qx, qy, qz⟩ = true := by
        unfold VoxelArea.contains
        simp only [Bool.and_eq_true, decide_eq_true_eq]
        refine ⟨⟨⟨⟨⟨?_, ?_⟩, ?_⟩, ?_⟩, ?_⟩, ?_⟩ <;> omega
      rw [h1, h2]
    · have h1 : ((intRange nmin.Z nmax.Z).any (fun z =>
          (intRange nmin.Y nmax.Y).any (fun y =>
            (intRange nmin.X nmax.X).any (fun x =>
              decide ((⟨qx, qy, qz⟩ : v3s16) = ⟨x, y, z⟩))))) = false := by
        cases hb : ((intRange nmin.Z nmax.Z).any (fun z =>
            (intRange nmin.Y nmax.Y).any (fun y =>
              (intRange nmin.X nmax.X).any (fun x =>
                decide ((⟨qx, qy, qz⟩ : v3s16) = ⟨x, y, z⟩)))))
        · rfl
        · exfalso
          obtain ⟨z, hz', h⟩ := List.any_eq_true.mp hb
          obtain ⟨y, hy', h⟩ := List.any_eq_true.mp h
          obtain ⟨x, hx', h⟩ := List.any_eq_true.mp h
          have heq := of_decide_eq_true h
          rw [v3s16.mk.injEq] at heq
          obtain ⟨rfl, rfl, rfl⟩ := heq
          have hxm := mem_intRange.mp hx'
          have hym := mem_intRange.mp hy'
          have hzm := mem_intRange.mp hz'
          exact hc ⟨hxm.1, hxm.2, hym.1, hym.2, hzm.1, hzm.2⟩
      have h2 : (⟨nmin, nmax⟩ : VoxelArea).contains ⟨qx, qy, qz⟩ = false := by
        cases hb : (⟨nmin, nmax⟩ : VoxelArea).contains ⟨qx, qy, qz⟩
        · rfl
        · exfalso
          have := hb
          unfold VoxelArea.contains at this
          simp only [Bool.and_eq_true, decide_eq_true_eq] at this
          exact hc ⟨this.1.1.1.1.1, this.1.1.1.1.2, this.1.1.1.2, this.1.1.2,
            this.1.2, this.2⟩
      rw [h1, h2]
  rw [hcond]

/-- C7: ids 0, 1, 2 are assigned in order from the empty registry; after
removing id 1, the next add reuses slot 1; and `getByName` for A's name still
returns A stored at id 0 (lookup scans slots in order and returns the first
occupied match). -/
theorem registry_slot_reuse :
    (mgr0.add elemA).2 = 0 ∧ (mgr1.add elemB).2 = 1 ∧ (mgr2.add elemC).2 = 2 ∧
    (mgr4.add elemD).2 = 1 ∧
    mgr5.get 0 = some ⟨"A", 0⟩ ∧ mgr5.get 1 = some ⟨"D", 1⟩ ∧
    mgr5.getByName "A" = some ⟨"A", 0⟩ := by
  decide

theorem firstNoneIdx_none_iff (l : List (Option GenElement)) :
    firstNoneIdx l = none ↔ none ∉ l := by
  induction l with
  | nil => simp [firstNoneIdx]
  | cons o rest ih =>
    cases o with
    | none => simp [firstNoneIdx]
    | some e =>
      simp only [firstNoneIdx, List.mem_cons, Option.map_eq_none']
      rw [ih]
      constructor
      · intro h hmem
        rcases hmem with h' | h'
        · exact absurd h'.symm (by simp)
        · exact h h'
      · intro h hmem
        exact h (Or.inr hmem)

theorem firstNoneIdx_lt (l : List (Option GenElement)) (i : Nat)
    (h : firstNoneIdx l = some i) : i < l.length := by
  induction l generalizing i with
  | nil => simp [firstNoneIdx] at h
  | cons o rest ih =>
    cases o with
    | none =>
      simp only [firstNoneIdx, Option.some.injEq] at h
      simp [← h]
    | some e =>
      simp only [firstNoneIdx, Option.map_eq_some'] at h
      obtain ⟨j, hj, rfl⟩ := h
      have := ih j hj
      simp only [List.length_cons]
      omega

theorem getD_set_self (l : List (Option GenElement)) (i : Nat) (v : Option GenElement)
    (h : i < l.length) : (l.set i v).getD i none = v := by
  induction l generalizing i with
  | nil => simp at h
  | cons o rest ih =>
    cases i with
    | zero => simp [List.set, List.getD]
    | succ j =>
      simp only [List.set, List.getD_cons_succ]
      exact ih j (by simp at h; omega)

theorem getD_append_self (l : List (Option GenElement)) (v : Option GenElement) :
    (l ++ [v]).getD l.length none = v := by
  induction l with
  | nil => simp [List.getD]
  | cons o rest ih =>
    simp only [List.cons_append, List.length_cons, List.getD_cons_succ]
    exact ih

/-- C8: `add` succeeds — returning an id that is a valid index holding the
element stamped with that id — whenever the slot table has an empty slot or
holds fewer elements than `ELEMENT_LIMIT`; when it is full to the limit with
no empty slot, `add` returns the `(u32)-1` overflow sentinel and leaves the
registry completely unchanged. -/
theorem add_capacity (m : GenElementManager) (e : GenElement) :
    (none ∈ m.elements ∨ m.elements.length < m.limit →
      (m.add e).2 < (m.add e).1.elements.length ∧
      (m.add e).1.get (m.add e).2 = some { e with id := (m.add e).2 }) ∧
    (none ∉ m.elements → m.limit ≤ m.elements.length →
      m.add e = (m, U32_MINUS_ONE)) := by
  constructor
  · intro hsucc
    unfold GenElementManager.add
    cases hfi : firstNoneIdx m.elements with
    | some i =>
      have hlt := firstNoneIdx_lt _ _ hfi
      constructor
      · simpa [List.length_set] using hlt
      · unfold GenElementManager.get
        simp only
        exact getD_set_self m.elements i _ hlt
    | none =>
      have hnm : none ∉ m.elements := (firstNoneIdx_none_iff _).mp hfi
      have hlen : m.elements.length < m.limit := by
        rcases hsucc with h | h
        · exact absurd h hnm
        · exact h
      rw [if_neg (by omega)]
      constructor
      · simp
      · unfold GenElementManager.get
        simp only
        exact getD_append_self m.elements _
  · intro hnm hlim
    have hfi : firstNoneIdx m.elements = none := (firstNoneIdx_none_iff _).mpr hnm
    unfold GenElementManager.add
    rw [hfi]
    rw [if_pos (by omega)]

/-- Witness for C8: adding into a one-hole registry succeeds; adding to a full
capacity-1 registry returns the sentinel and changes nothing. -/
theorem add_capacity_witness :
    ((mgrHole.add elemD).2 < (mgrHole.add elemD).1.elements.length ∧
      (mgrHole.add elemD).1.get (mgrHole.add elemD).2 =
        some { elemD with id := (mgrHole.add elemD).2 }) ∧
    mgrFull.add elemD = (mgrFull, U32_MINUS_ONE) :=
  ⟨(add_capacity mgrHole elemD).1 (Or.inl (by decide)),
   (add_capacity mgrFull elemD).2 (by decide) (by decide)⟩

theorem setParam1_content (w : World) (p : v3s16) (v : Nat) (q : v3s16) :
    ((setParam1 w p v) q).content = (w q).content := by
  unfold setParam1
  by_cases h : q = p
  · subst h
    simp
  · simp [h]

theorem setParam1_param1 (w : World) (p : v3s16) (v : Nat) (q : v3s16) :
    ((setParam1 w p v) q).param1 = if q = p then v else (w q).param1 := by
  unfold setParam1
  by_cases h : q = p
  · subst h
    simp
  · simp [h]

theorem lightSpread_content (a : VoxelArea) (d : NodeDef) :
    ∀ (light : Nat) (w : World) (p q : v3s16),
      ((lightSpread a d w p light) q).content = (w q).content := by
  intro light
  induction light with
  | zero =>
    intro w p q
    rfl
  | succ n ih =>
    intro w p q
    by_cases hg1 : n + 1 ≤ 1 ∨ a.contains p = false
    · simp only [lightSpread]
      rw [if_pos hg1]
    · by_cases hg2 : n ≤ (w p).param1 ∨ (d (w p).content).light_propagates = false
      · simp only [lightSpread]
        rw [if_neg hg1, if_pos hg2]
      · simp only [lightSpread]
        rw [if_neg hg1, if_neg hg2]
        simp only [ih, setParam1_content]

theorem lightSpread_mono (a : VoxelArea) (d : NodeDef) :
    ∀ (light : Nat) (w : World) (p q : v3s16),
      (w q).param1 ≤ ((lightSpread a d w p light) q).param1 := by
  intro light
  induction light with
  | zero =>
    intro w p q
    exact le_refl _
  | succ n ih =>
    intro w p q
    by_cases hg1 : n + 1 ≤ 1 ∨ a.contains p = false
    · simp only [lightSpread]
      rw [if_pos hg1]
    · by_cases hg2 : n ≤ (w p).param1 ∨ (d (w p).content).light_propagates = false
      · simp only [lightSpread]
        rw [if_neg hg1, if_pos hg2]
      · simp only [lightSpread]
        rw [if_neg hg1, if_neg hg2]
        have hwrit : (w q).param1 ≤ ((setParam1 w p n) q).param1 := by
          rw [setParam1_param1]
          by_cases hq : q = p
          · subst hq
            rw [if_pos rfl]
            omega
          · rw [if_neg hq]
        calc (w q).param1 ≤ ((setParam1 w p n) q).param1 := hwrit
          _ ≤ _ := le_trans (ih _ _ q) (le_trans (ih _ _ q) (le_trans (ih _ _ q)
                (le_trans (ih _ _ q) (le_trans (ih _ _ q) (ih _ _ q)))))

theorem lightSpread_bound (a : VoxelArea) (d : NodeDef) :
    ∀ (light : Nat) (w : World) (p q : v3s16),
      ((lightSpread a d w p light) q).param1 ≤ max (w q).param1 (light - 1) := by
  intro light
  induction light with
  | zero =>
    intro w p q
    exact le_max_left _ _
  | succ n ih =>
    intro w p q
    by_cases hg1 : n + 1 ≤ 1 ∨ a.contains p = false
    · simp only [lightSpread]
      rw [if_pos hg1]
      exact le_max_left _ _
    · by_cases hg2 : n ≤ (w p).param1 ∨ (d (w p).content).light_propagates = false
      · simp only [lightSpread]
        rw [if_neg hg1, if_pos hg2]
        exact le_max_left _ _
      · simp only [lightSpread]
        rw [if_neg hg1, if_neg hg2]
        have h1 : ((setParam1 w p n) q).param1 ≤ max (w q).param1 n := by
          rw [setParam1_param1]
          by_cases hq : q = p
          · subst hq
            rw [if_pos rfl]
            omega
          · rw [if_neg hq]
            omega
        have hstep : ∀ (w' : World) (p' : v3s16),
            (w' q).param1 ≤ max (w q).param1 n →
            ((lightSpread a d w' p' n) q).param1 ≤ max (w q).param1 n := by
          intro w' p' hw'
          have := ih w' p' q
          omega
        exact hstep _ _ (hstep _ _ (hstep _ _ (hstep _ _ (hstep _ _ (hstep _ _ h1)))))

/-- C1 (amended): a successful `lightSpread` call with budget `light` writes
exactly `light - 1` into its target, and that value survives the rest of the
recursion; the recursion hands the written value on as the next budget, so
each onward write is again exactly one less — but `calcLighting` already
passes `light - 1` for a source of level `L`, so the first neighbor receives
`L - 2` (see the counterexample).  A budget of 1 propagates nothing. -/
theorem lightSpread_writes_exactly_decrement (a : VoxelArea) (d : NodeDef)
    (w : World) (p : v3s16) (light : Nat)
    (h2 : 2 ≤ light) (hc : a.contains p = true)
    (hlt : (w p).param1 < light - 1)
    (hpr : (d (w p).content).light_propagates = true) :
    ((lightSpread a d w p light) p).param1 = light - 1 ∧
    ∀ (w' : World) (p' : v3s16), lightSpread a d w' p' 1 = w' := by
  constructor
  · obtain ⟨m, rfl⟩ : ∃ m, light = m + 1 := ⟨light - 1, by omega⟩
    have hm : 1 ≤ m := by omega
    have hg1 : ¬(m + 1 ≤ 1 ∨ a.contains p = false) := by
      rw [hc]
      push_neg
      exact ⟨by omega, by simp⟩
    have hg2 : ¬(m ≤ (w p).param1 ∨ (d (w p).content).light_propagates = false) := by
      rw [hpr]
      push_neg
      refine ⟨by omega, by simp⟩
    simp only [lightSpread]
    rw [if_neg hg1, if_neg hg2]
    have h1 : ((setParam1 w p m) p).param1 = m := by
      rw [setParam1_param1, if_pos rfl]
    have hstep : ∀ (w' : World) (p' : v3s16),
        (w' p).param1 = m →
        ((lightSpread a d w' p' m) p).param1 = m := by
      intro w' p' hw'
      have hlo := lightSpread_mono a d m w' p' p
      have hhi := lightSpread_bound a d m w' p' p
      omega
    have := hstep _ ⟨p.X - 1, p.Y, p.Z⟩
      (hstep _ ⟨p.X, p.Y - 1, p.Z⟩
        (hstep _ ⟨p.X, p.Y, p.Z - 1⟩
          (hstep _ ⟨p.X + 1, p.Y, p.Z⟩
            (hstep _ ⟨p.X, p.Y + 1, p.Z⟩
              (hstep _ ⟨p.X, p.Y, p.Z + 1⟩ h1)))))
    omega
  · intro w' p'
    simp [lightSpread]

/-- Witness for C1 (amended): a budget-5 spread into a dark propagating node
inside the area writes exactly 4. -/
theorem lightSpread_writes_exactly_decrement_witness :
    ((lightSpread ⟨⟨0, 0, 0⟩, ⟨1, 0, 0⟩⟩ dEx wProp ⟨0, 0, 0⟩ 5) ⟨0, 0, 0⟩).param1 = 5 - 1 ∧
    ∀ (w' : World) (p' : v3s16), lightSpread ⟨⟨0, 0, 0⟩, ⟨1, 0, 0⟩⟩ dEx w' p' 1 = w' :=
  lightSpread_writes_exactly_decrement ⟨⟨0, 0, 0⟩, ⟨1, 0, 0⟩⟩ dEx wProp ⟨0, 0, 0⟩ 5
    (by omega) (by decide) (by decide) (by decide)

/-- C1 counterexample: in `calcLighting`, a source node holding light 5 gives
its first neighbor light 3 = 5 - 2, not 5 - 1: `calcLighting` passes
`light - 1` as the budget and `lightSpread` decrements the budget again before
writing. -/
theorem calcLighting_first_neighbor_cex :
    ((calcLighting dEx 5 wC1 ⟨0, 0, 0⟩ ⟨1, 0, 0⟩) ⟨0, 0, 0⟩).param1 = 5 ∧
    ((calcLighting dEx 5 wC1 ⟨0, 0, 0⟩ ⟨1, 0, 0⟩) ⟨1, 0, 0⟩).param1 = 3 ∧
    (3 : Nat) ≠ 5 - 1 := by
  refine ⟨by decide, by decide, by omega⟩

/-- C9: the recursion depth of `lightSpread` is bounded by the initial light
budget: running it under any explicit depth budget `fuel ≥ light` (in
particular `fuel = 15` for any light value in `[0, 15]`) never exhausts the
budget and computes the very same buffer — the `≤ 1` cutoff, the write-only-
if-strictly-brighter guard and the per-step decrement terminate the recursion
with no visited-set. -/
theorem lightSpread_terminates_within_light_fuel (a : VoxelArea) (d : NodeDef) :
    ∀ (fuel light : Nat), light ≤ fuel → ∀ (w : World) (p : v3s16),
      lightSpreadFuel a d fuel w p light = lightSpread a d w p light := by
  intro fuel
  induction fuel with
  | zero =>
    intro light h w p
    have h0 : light = 0 := by omega
    subst h0
    rfl
  | succ n ih =>
    intro light h w p
    cases light with
    | zero => rfl
    | succ l =>
      simp only [lightSpreadFuel, lightSpread]
      by_cases hg1 : l + 1 ≤ 1 ∨ a.contains p = false
      · rw [if_pos hg1, if_pos hg1]
      · rw [if_neg hg1, if_neg hg1]
        by_cases hg2 : l ≤ (w p).param1 ∨ (d (w p).content).light_propagates = false
        · rw [if_pos hg2, if_pos hg2]
        · rw [if_neg hg2, if_neg hg2]
          simp only [ih l (by omega)]

/-- Witness for C9: depth budget 15 suffices for a light-5 spread. -/
theorem lightSpread_terminates_within_light_fuel_witness :
    lightSpreadFuel ⟨⟨0, 0, 0⟩, ⟨3, 0, 0⟩⟩ dEx 15 wProp ⟨0, 0, 0⟩ 5 =
      lightSpread ⟨⟨0, 0, 0⟩, ⟨3, 0, 0⟩⟩ dEx wProp ⟨0, 0, 0⟩ 5 :=
  lightSpread_terminates_within_light_fuel ⟨⟨0, 0, 0⟩, ⟨3, 0, 0⟩⟩ dEx 15 5
    (by omega) wProp ⟨0, 0, 0⟩

theorem updateHeightmapCol_other (d : NodeDef) (w : World) (hm : Heightmap)
    (nmin nmax : v3s16) (x z : Int) (q : Int × Int) (hq : q ≠ (x, z)) :
    (updateHeightmapCol d w hm nmin nmax x z) q = hm q := by
  unfold updateHeightmapCol
  by_cases h1 : findGroundLevel d w x z nmin.Y nmax.Y = nmax.Y ∧ hm (x, z) > nmax.Y
  · rw [if_pos h1]
  · rw [if_neg h1]
    by_cases h2 : findGroundLevel d w x z nmin.Y nmax.Y = nmin.Y - 1 ∧ hm (x, z) < nmin.Y
    · rw [if_pos h2]
    · rw [if_neg h2]
      simp only [if_neg hq]

theorem updateHeightmapCol_self (d : NodeDef) (w : World) (hm : Heightmap)
    (nmin nmax : v3s16) (x z : Int) :
    (updateHeightmapCol d w hm nmin nmax x z) (x, z) =
      heightmapRule d w nmin nmax x z (hm (x, z)) := by
  unfold updateHeightmapCol heightmapRule
  by_cases h1 : findGroundLevel d w x z nmin.Y nmax.Y = nmax.Y ∧ hm (x, z) > nmax.Y
  · rw [if_pos h1, if_pos h1]
  · rw [if_neg h1, if_neg h1]
    by_cases h2 : findGroundLevel d w x z nmin.Y nmax.Y = nmin.Y - 1 ∧ hm (x, z) < nmin.Y
    · rw [if_pos h2, if_pos h2]
    · rw [if_neg h2, if_neg h2]
      simp

theorem heightmapInnerFold_zne (d : NodeDef) (w : World) (nmin nmax : v3s16) (z' : Int) :
    ∀ (xs : List Int) (hm : Heightmap) (x0 z0 : Int), z0 ≠ z' →
      (xs.foldl (fun hx x' => updateHeightmapCol d w hx nmin nmax x' z') hm) (x0, z0) =
        hm (x0, z0) := by
  intro xs
  induction xs with
  | nil =>
    intro hm x0 z0 _
    rfl
  | cons x' xs ih =>
    intro hm x0 z0 hne
    rw [List.foldl_cons, ih _ x0 z0 hne,
      updateHeightmapCol_other d w hm nmin nmax x' z' (x0, z0) (by simp [hne])]

theorem heightmapInnerFold_other (d : NodeDef) (w : World) (nmin nmax : v3s16) (z : Int) :
    ∀ (xs : List Int) (hm : Heightmap) (x0 : Int), x0 ∉ xs →
      (xs.foldl (fun hx x' => updateHeightmapCol d w hx nmin nmax x' z) hm) (x0, z) =
        hm (x0, z) := by
  intro xs
  induction xs with
  | nil =>
    intro hm x0 _
    rfl
  | cons x' xs ih =>
    intro hm x0 hx0
    have hne : x0 ≠ x' := fun h => hx0 (h ▸ List.mem_cons_self x' xs)
    rw [List.foldl_cons, ih _ x0 (fun h => hx0 (List.mem_cons_of_mem x' h)),
      updateHeightmapCol_other d w hm nmin nmax x' z (x0, z) (by simp [hne])]

theorem heightmapInnerFold_at (d : NodeDef) (w : World) (nmin nmax : v3s16) (z x : Int) :
    ∀ (xs : List Int), xs.Nodup → x ∈ xs → ∀ (hm : Heightmap),
      (xs.foldl (fun hx x' => updateHeightmapCol d w hx nmin nmax x' z) hm) (x, z) =
        heightmapRule d w nmin nmax x z (hm (x, z)) := by
  intro xs
  induction xs with
  | nil =>
    intro _ hmem
    exact absurd hmem (List.not_mem_nil x)
  | cons x' xs ih =>
    intro hnd hmem hm
    rw [List.foldl_cons]
    by_cases hx : x' = x
    · subst hx
      have hnotin : x' ∉ xs := (List.nodup_cons.mp hnd).1
      rw [heightmapInnerFold_other d w nmin nmax z xs _ x' hnotin,
        updateHeightmapCol_self]
    · have hmem' : x ∈ xs := by
        rcases List.mem_cons.mp hmem with h | h
        · exact absurd h.symm hx
        · exact h
      rw [ih (List.nodup_cons.mp hnd).2 hmem',
        updateHeightmapCol_other d w hm nmin nmax x' z (x, z)
          (fun h => hx ((congrArg Prod.fst h).symm))]

theorem heightmapOuterFold_notmem (d : NodeDef) (w : World) (nmin nmax : v3s16) (x z : Int) :
    ∀ (zs : List Int) (hm : Heightmap), z ∉ zs →
      (zs.foldl (fun hz z' =>
          (intRange nmin.X nmax.X).foldl (fun hx x' =>
            updateHeightmapCol d w hx nmin nmax x' z') hz) hm) (x, z) = hm (x, z) := by
  intro zs
  induction zs with
  | nil =>
    intro hm _
    rfl
  | cons z' zs ih =>
    intro hm hz
    have hne : z ≠ z' := fun h => hz (h ▸ List.mem_cons_self z' zs)
    rw [List.foldl_cons, ih _ (fun h => hz (List.mem_cons_of_mem z' h)),
      heightmapInnerFold_zne d w nmin nmax z' _ hm x z hne]

/-- C2 (amended): for every region column, `updateHeightmap` transforms the
stored entry by exactly the source's trust rule: the old entry survives only
when the scan stops at the top edge (`y = nmax.Y`) with the old entry above
`nmax.Y`, or when the scan reports not-found (`y = nmin.Y - 1`) with the old
entry below `nmin.Y`; in every other case — in particular a not-found rescan
whose old entry lies above the scanned range — the fresh scan value is
written. -/
theorem updateHeightmap_column_rule (d : NodeDef) (w : World) (hm : Heightmap)
    (nmin nmax : v3s16) (x z : Int)
    (hx1 : nmin.X ≤ x) (hx2 : x ≤ nmax.X) (hz1 : nmin.Z ≤ z) (hz2 : z ≤ nmax.Z) :
    updateHeightmap d w hm nmin nmax (x, z) =
      heightmapRule d w nmin nmax x z (hm (x, z)) := by
  unfold updateHeightmap
  have hxmem : x ∈ intRange nmin.X nmax.X := mem_intRange.mpr ⟨hx1, hx2⟩
  have hzmem : z ∈ intRange nmin.Z nmax.Z := mem_intRange.mpr ⟨hz1, hz2⟩
  have haux : ∀ (zs : List Int), zs.Nodup → z ∈ zs → ∀ (hm' : Heightmap),
      (zs.foldl (fun hz z' =>
          (intRange nmin.X nmax.X).foldl (fun hx x' =>
            updateHeightmapCol d w hx nmin nmax x' z') hz) hm') (x, z) =
        heightmapRule d w nmin nmax x z (hm' (x, z)) := by
    intro zs
    induction zs with
    | nil =>
      intro _ hmem
      exact absurd hmem (List.not_mem_nil z)
    | cons z' zs ih =>
      intro hnd hmem hm'
      rw [List.foldl_cons]
      by_cases hz : z' = z
      · subst hz
        have hnotin : z' ∉ zs := (List.nodup_cons.mp hnd).1
        rw [heightmapOuterFold_notmem d w nmin nmax x z' zs _ hnotin,
          heightmapInnerFold_at d w nmin nmax z' x (intRange nmin.X nmax.X)
            (intRange_nodup _ _) hxmem hm']
      · have hmem' : z ∈ zs := by
          rcases List.mem_cons.mp hmem with h | h
          · exact absurd h.symm hz
          · exact h
        rw [ih (List.nodup_cons.mp hnd).2 hmem',
          heightmapInnerFold_zne d w nmin nmax z' _ hm' x z (fun h => hz h.symm)]
  exact haux (intRange nmin.Z nmax.Z) (intRange_nodup _ _) hzmem hm

/-- Witness for C2 (amended): the rule applied to the column `(0, 0)` of the
`[40, 45]` rescan of an all-air buffer against a stored entry of 50. -/
theorem updateHeightmap_column_rule_witness :
    updateHeightmap dEx wAir hm50 ⟨0, 40, 0⟩ ⟨0, 45, 0⟩ (0, 0) =
      heightmapRule dEx wAir ⟨0, 40, 0⟩ ⟨0, 45, 0⟩ 0 0 (hm50 (0, 0)) :=
  updateHeightmap_column_rule dEx wAir hm50 ⟨0, 40, 0⟩ ⟨0, 45, 0⟩ 0 0
    (by decide) (by decide) (by decide) (by decide)

/-- C2 counterexample: with a stored entry of 50, rescanning `[40, 45]` of an
all-air buffer (scan result 39) does **not** leave the entry at 50 — the code
requires the old entry to lie *below* the scanned range to trust it on a
not-found scan, so it overwrites the entry with 39; the `[40, 60]` rescan also
writes 39. -/
theorem updateHeightmap_trust_cex :
    (updateHeightmap dEx wAir hm50 ⟨0, 40, 0⟩ ⟨0, 45, 0⟩) (0, 0) = 39 ∧
    hm50 (0, 0) = 50 ∧ ((39 : Int) = 50 → False) ∧
    (updateHeightmap dEx wAir hm50 ⟨0, 40, 0⟩ ⟨0, 60, 0⟩) (0, 0) = 39 := by
  refine ⟨by decide, rfl, by omega, by decide⟩

theorem intRange_self (y : Int) : intRange y y = [y] := by
  unfold intRange
  have h1 : (y + 1 - y).toNat = 1 := by omega
  have h2 : List.range 1 = [0] := rfl
  rw [h1, h2]
  simp

theorem intRange_concat (lo hi : Int) (h : lo ≤ hi) :
    intRange lo hi = intRange lo (hi - 1) ++ [hi] := by
  unfold intRange
  have h1 : (hi + 1 - lo).toNat = (hi - 1 + 1 - lo).toNat + 1 := by omega
  rw [h1, List.range_succ, List.map_append]
  simp only [List.map_cons, List.map_nil, List.append_cancel_left_eq, List.cons.injEq,
    and_true]
  omega

theorem propagatesUpTo_self (d : NodeDef) (w : World) (x z y : Int) :
    propagatesUpTo d w x z y y = (d (w ⟨x, y, z⟩).content).sunlight_propagates := by
  unfold propagatesUpTo
  rw [intRange_self]
  simp

theorem propagatesUpTo_concat (d : NodeDef) (w : World) (x z ylo yhi : Int)
    (h : ylo ≤ yhi) :
    propagatesUpTo d w x z ylo yhi =
      (propagatesUpTo d w x z ylo (yhi - 1) &&
        (d (w ⟨x, yhi, z⟩).content).sunlight_propagates) := by
  unfold propagatesUpTo
  rw [intRange_concat ylo yhi h, List.all_append]
  simp

theorem propagatesUpTo_congr (d : NodeDef) (w1 w2 : World) (x z ylo yhi : Int)
    (hc : ∀ q, (w1 q).content = (w2 q).content) :
    propagatesUpTo d w1 x z ylo yhi = propagatesUpTo d w2 x z ylo yhi := by
  unfold propagatesUpTo
  have hfun : (fun y' => (d (w1 ⟨x, y', z⟩).content).sunlight_propagates) =
      (fun y' => (d (w2 ⟨x, y', z⟩).content).sunlight_propagates) := by
    funext y'
    rw [hc]
  rw [hfun]

theorem sunDescend_char (d : NodeDef) (x z : Int) :
    ∀ (fuel : Nat) (y : Int) (w : World) (q : v3s16),
      (sunDescend d x z w fuel y) q =
        if q.X = x ∧ q.Z = z ∧ q.Y ≤ y ∧ y < q.Y + (fuel : Int) ∧
            propagatesUpTo d w x z q.Y y = true
        then { w q with param1 := LIGHT_SUN } else w q := by
  intro fuel
  induction fuel with
  | zero =>
    intro y w q
    rw [if_neg ?_]
    · rfl
    · rintro ⟨-, -, h3, h4, -⟩
      omega
  | succ n ih =>
    intro y w q
    by_cases hp : (d (w ⟨x, y, z⟩).content).sunlight_propagates = true
    · have hstep : sunDescend d x z w (n + 1) y =
          sunDescend d x z (setParam1 w ⟨x, y, z⟩ LIGHT_SUN) n (y - 1) := by
        simp [sunDescend, hp]
      rw [hstep, ih]
      have hcong : propagatesUpTo d (setParam1 w ⟨x, y, z⟩ LIGHT_SUN) x z q.Y (y - 1) =
          propagatesUpTo d w x z q.Y (y - 1) :=
        propagatesUpTo_congr d _ w x z q.Y (y - 1) (setParam1_content w _ _)
      by_cases hq : q = ⟨x, y, z⟩
      · subst hq
        have hIHcond : ¬((⟨x, y, z⟩ : v3s16).X = x ∧ (⟨x, y, z⟩ : v3s16).Z = z ∧
            (⟨x, y, z⟩ : v3s16).Y ≤ y - 1 ∧ y - 1 < (⟨x, y, z⟩ : v3s16).Y + (n : Int) ∧
            propagatesUpTo d (setParam1 w ⟨x, y, z⟩ LIGHT_SUN) x z
              (⟨x, y, z⟩ : v3s16).Y (y - 1) = true) := by
          rintro ⟨-, -, h3, -, -⟩
          exact absurd (show y ≤ y - 1 from h3) (by omega)
        rw [if_neg hIHcond]
        have htgt : (⟨x, y, z⟩ : v3s16).X = x ∧ (⟨x, y, z⟩ : v3s16).Z = z ∧
            (⟨x, y, z⟩ : v3s16).Y ≤ y ∧ y < (⟨x, y, z⟩ : v3s16).Y + ((n + 1 : Nat) : Int) ∧
            propagatesUpTo d w x z (⟨x, y, z⟩ : v3s16).Y y = true := by
          refine ⟨rfl, rfl, le_refl y, by push_cast; omega, ?_⟩
          show propagatesUpTo d w x z y y = true
          rw [propagatesUpTo_self]
          exact hp
        rw [if_pos htgt]
        simp [setParam1]
      · have hval : setParam1 w ⟨x, y, z⟩ LIGHT_SUN q = w q := by
          unfold setParam1
          rw [if_neg hq]
        rw [hcong, hval]
        by_cases hxz : q.X = x ∧ q.Z = z
        · have hyne : q.Y ≠ y := by
            intro hy
            exact hq (by cases q; simp at hxz hy ⊢; exact ⟨hxz.1, hy, hxz.2⟩)
          by_cases hcnd : q.Y ≤ y - 1 ∧ y - 1 < q.Y + (n : Int) ∧
              propagatesUpTo d w x z q.Y (y - 1) = true
          · rw [if_pos ⟨hxz.1, hxz.2, hcnd.1, hcnd.2.1, hcnd.2.2⟩,
              if_pos ?_]
            refine ⟨hxz.1, hxz.2, by omega, by push_cast; omega, ?_⟩
            rw [propagatesUpTo_concat d w x z q.Y y (by omega)]
            rw [hcnd.2.2, hp]
            rfl
          · rw [if_neg (by rintro ⟨-, -, h3, h4, h5⟩; exact hcnd ⟨h3, h4, h5⟩),
              if_neg ?_]
            rintro ⟨-, -, h3, h4, h5⟩
            have h3' : q.Y ≤ y - 1 := by omega
            have h4' : y - 1 < q.Y + (n : Int) := by push_cast at h4; omega
            have h5' : propagatesUpTo d w x z q.Y (y - 1) = true := by
              rw [propagatesUpTo_concat d w x z q.Y y (by omega)] at h5
              simp only [Bool.and_eq_true] at h5
              exact h5.1
            exact hcnd ⟨h3', h4', h5'⟩
        · rw [if_neg (by rintro ⟨h1, h2, -⟩; exact hxz ⟨h1, h2⟩),
            if_neg (by rintro ⟨h1, h2, -⟩; exact hxz ⟨h1, h2⟩)]
    · have hp' : (d (w ⟨x, y, z⟩).content).sunlight_propagates = false := by
        cases hb : (d (w ⟨x, y, z⟩).content).sunlight_propagates
        · rfl
        · exact absurd hb hp
      have hstep : sunDescend d x z w (n + 1) y = w := by
        simp [sunDescend, hp']
      rw [hstep, if_neg ?_]
      rintro ⟨h1, h2, h3, -, h5⟩
      unfold propagatesUpTo at h5
      have hy : y ∈ intRange q.Y y := mem_intRange.mpr ⟨h3, le_refl y⟩
      have := List.all_eq_true.mp h5 y hy
      simp only [decide_eq_true_eq] at this
      rw [this] at hp'
      exact absurd hp' (by simp)

theorem sunColumn_char (d : NodeDef) (wl : Int) (w : World) (nmin nmax : v3s16)
    (x z : Int) (q : v3s16) :
    (sunColumn d wl w nmin nmax x z) q =
      if colLitB d wl w nmin nmax x z q = true then { w q with param1 := LIGHT_SUN }
      else w q := by
  have hdesc : (sunDescend d x z w (nmax.Y + 1 - nmin.Y).toNat nmax.Y) q =
      if q.X = x ∧ q.Z = z ∧ q.Y ≤ nmax.Y ∧
          nmax.Y < q.Y + (((nmax.Y + 1 - nmin.Y).toNat : Nat) : Int) ∧
          propagatesUpTo d w x z q.Y nmax.Y = true
      then { w q with param1 := LIGHT_SUN } else w q := sunDescend_char d x z _ nmax.Y w q
  simp only [sunColumn, colLitB, sunOpenCond]
  by_cases hig : (w ⟨x, nmax.Y + 1, z⟩).content = CONTENT_IGNORE
  · rw [if_pos hig, if_pos hig]
    by_cases hund : wl ≥ nmax.Y
    · rw [if_pos hund]
      have hd : decide (wl < nmax.Y) = false := decide_eq_false (by omega)
      rw [hd]
      simp
    · rw [if_neg hund]
      have hd : decide (wl < nmax.Y) = true := decide_eq_true (by omega)
      rw [hd, hdesc]
      have hcnd : (q.X = x ∧ q.Z = z ∧ q.Y ≤ nmax.Y ∧
          nmax.Y < q.Y + (((nmax.Y + 1 - nmin.Y).toNat : Nat) : Int) ∧
          propagatesUpTo d w x z q.Y nmax.Y = true) ↔
          ((((true && decide (q.X = x)) && decide (q.Z = z)) && decide (nmin.Y ≤ q.Y)) &&
            decide (q.Y ≤ nmax.Y) && propagatesUpTo d w x z q.Y nmax.Y) = true := by
        simp only [Bool.and_eq_true, decide_eq_true_eq, Bool.true_and]
        constructor
        · rintro ⟨h1, h2, h3, h4, h5⟩
          exact ⟨⟨⟨⟨h1, h2⟩, by omega⟩, h3⟩, h5⟩
        · rintro ⟨⟨⟨⟨h1, h2⟩, h3⟩, h4⟩, h5⟩
          exact ⟨h1, h2, h4, by omega, h5⟩
      by_cases hc : (q.X = x ∧ q.Z = z ∧ q.Y ≤ nmax.Y ∧
          nmax.Y < q.Y + (((nmax.Y + 1 - nmin.Y).toNat : Nat) : Int) ∧
          propagatesUpTo d w x z q.Y nmax.Y = true)
      · rw [if_pos hc, if_pos (hcnd.mp hc)]
      · rw [if_neg hc, if_neg (fun hh => hc (hcnd.mpr hh))]
  · rw [if_neg hig, if_neg hig]
    by_cases hsun : (w ⟨x, nmax.Y + 1, z⟩).param1 % 16 = LIGHT_SUN
    · rw [if_neg (not_not_intro hsun)]
      have hd : decide ((w ⟨x, nmax.Y + 1, z⟩).param1 % 16 = LIGHT_SUN) = true :=
        decide_eq_true hsun
      rw [hd, hdesc]
      have hcnd : (q.X = x ∧ q.Z = z ∧ q.Y ≤ nmax.Y ∧
          nmax.Y < q.Y + (((nmax.Y + 1 - nmin.Y).toNat : Nat) : Int) ∧
          propagatesUpTo d w x z q.Y nmax.Y = true) ↔
          ((((true && decide (q.X = x)) && decide (q.Z = z)) && decide (nmin.Y ≤ q.Y)) &&
            decide (q.Y ≤ nmax.Y) && propagatesUpTo d w x z q.Y nmax.Y) = true := by
        simp only [Bool.and_eq_true, decide_eq_true_eq, Bool.true_and]
        constructor
        · rintro ⟨h1, h2, h3, h4, h5⟩
          exact ⟨⟨⟨⟨h1, h2⟩, by omega⟩, h3⟩, h5⟩
        · rintro ⟨⟨⟨⟨h1, h2⟩, h3⟩, h4⟩, h5⟩
          exact ⟨h1, h2, h4, by omega, h5⟩
      by_cases hc : (q.X = x ∧ q.Z = z ∧ q.Y ≤ nmax.Y ∧
          nmax.Y < q.Y + (((nmax.Y + 1 - nmin.Y).toNat : Nat) : Int) ∧
          propagatesUpTo d w x z q.Y nmax.Y = true)
      · rw [if_pos hc, if_pos (hcnd.mp hc)]
      · rw [if_neg hc, if_neg (fun hh => hc (hcnd.mpr hh))]
    · rw [if_pos hsun]
      have hd : decide ((w ⟨x, nmax.Y + 1, z⟩).param1 % 16 = LIGHT_SUN) = false :=
        decide_eq_false hsun
      rw [hd]
      simp

theorem overlayLit_content (w : World) (S : v3s16 → Bool) (q : v3s16) :
    ((overlayLit w S) q).content = (w q).content := by
  unfold overlayLit
  by_cases h : S q = true
  · simp [h]
  · simp [h]

theorem overlayLit_false (w : World) : overlayLit w (fun _ => false) = w := by
  funext q
  simp [overlayLit]

theorem colLitB_y_le (d : NodeDef) (wl : Int) (w : World) (nmin nmax : v3s16)
    (x z : Int) (q : v3s16) (h : colLitB d wl w nmin nmax x z q = true) :
    q.Y ≤ nmax.Y := by
  simp only [colLitB, Bool.and_eq_true, decide_eq_true_eq] at h
  exact h.1.2

theorem litAnyB_y_le (d : NodeDef) (wl : Int) (w : World) (nmin nmax : v3s16)
    (ps : List (Int × Int)) (q : v3s16) (h : litAnyB d wl w nmin nmax ps q = true) :
    q.Y ≤ nmax.Y := by
  obtain ⟨xz, _, hxz⟩ := List.any_eq_true.mp h
  exact colLitB_y_le d wl w nmin nmax xz.1 xz.2 q hxz

theorem overlayLit_above (w : World) (S : v3s16 → Bool) (nmax : v3s16)
    (hS : ∀ q, S q = true → q.Y ≤ nmax.Y) :
    ∀ x z, overlayLit w S ⟨x, nmax.Y + 1, z⟩ = w ⟨x, nmax.Y + 1, z⟩ := by
  intro x z
  unfold overlayLit
  cases hb : S ⟨x, nmax.Y + 1, z⟩
  · simp
  · exact absurd (show nmax.Y + 1 ≤ nmax.Y from hS _ hb) (by omega)

theorem colLitB_congr (d : NodeDef) (wl : Int) (nmin nmax : v3s16) (w1 w2 : World)
    (hc : ∀ q, (w1 q).content = (w2 q).content)
    (ha : ∀ x z, w1 ⟨x, nmax.Y + 1, z⟩ = w2 ⟨x, nmax.Y + 1, z⟩) (x z : Int) (q : v3s16) :
    colLitB d wl w1 nmin nmax x z q = colLitB d wl w2 nmin nmax x z q := by
  unfold colLitB sunOpenCond
  rw [ha x z, propagatesUpTo_congr d w1 w2 x z q.Y nmax.Y hc]

theorem litAnyB_congr (d : NodeDef) (wl : Int) (nmin nmax : v3s16) (w1 w2 : World)
    (hc : ∀ q, (w1 q).content = (w2 q).content)
    (ha : ∀ x z, w1 ⟨x, nmax.Y + 1, z⟩ = w2 ⟨x, nmax.Y + 1, z⟩)
    (ps : List (Int × Int)) (q : v3s16) :
    litAnyB d wl w1 nmin nmax ps q = litAnyB d wl w2 nmin nmax ps q := by
  unfold litAnyB
  exact congrArg ps.any
    (funext fun xz => colLitB_congr d wl nmin nmax w1 w2 hc ha xz.1 xz.2 q)

theorem sunFold_pairs_char (d : NodeDef) (wl : Int) (nmin nmax : v3s16) (w : World) :
    ∀ (ps : List (Int × Int)) (S : v3s16 → Bool), (∀ q, S q = true → q.Y ≤ nmax.Y) →
      ps.foldl (fun w' xz => sunColumn d wl w' nmin nmax xz.1 xz.2) (overlayLit w S) =
        overlayLit w (fun q => S q || litAnyB d wl w nmin nmax ps q) := by
  intro ps
  induction ps with
  | nil =>
    intro S hS
    rw [List.foldl_nil]
    funext q
    simp [litAnyB]
  | cons xz ps ih =>
    intro S hS
    rw [List.foldl_cons]
    have hcol : sunColumn d wl (overlayLit w S) nmin nmax xz.1 xz.2 =
        overlayLit w (fun q => S q || colLitB d wl w nmin nmax xz.1 xz.2 q) := by
      funext q
      rw [sunColumn_char]
      rw [colLitB_congr d wl nmin nmax (overlayLit w S) w
        (overlayLit_content w S) (overlayLit_above w S nmax hS) xz.1 xz.2 q]
      unfold overlayLit
      cases hb : colLitB d wl w nmin nmax xz.1 xz.2 q <;> cases hbS : S q <;>
        simp [hb, hbS]
    rw [hcol]
    rw [ih (fun q => S q || colLitB d wl w nmin nmax xz.1 xz.2 q)
      (fun q hq => by
        rcases Bool.or_eq_true_iff.mp hq with h | h
        · exact hS q h
        · exact colLitB_y_le d wl w nmin nmax xz.1 xz.2 q h)]
    apply congrArg (overlayLit w)
    funext q
    simp [litAnyB, List.any_cons, Bool.or_assoc]

theorem nested_sunFold_eq_pairs (d : NodeDef) (wl : Int) (nmin nmax : v3s16) :
    ∀ (zs xs : List Int) (w0 : World),
      (zs.foldl (fun wz z => xs.foldl (fun wx x => sunColumn d wl wx nmin nmax x z) wz) w0) =
        ((colPairs zs xs).foldl (fun w' xz => sunColumn d wl w' nmin nmax xz.1 xz.2) w0) := by
  intro zs
  induction zs with
  | nil =>
    intro xs w0
    rfl
  | cons z zs ih =>
    intro xs w0
    rw [List.foldl_cons]
    have hpairs : colPairs (z :: zs) xs = xs.map (fun x => (x, z)) ++ colPairs zs xs := rfl
    rw [hpairs, List.foldl_append, List.foldl_map]
    exact ih xs _

theorem sunPhase_char (d : NodeDef) (wl : Int) (w : World) (nmin nmax : v3s16) :
    sunPhase d wl w nmin nmax =
      overlayLit w (litAnyB d wl w nmin nmax
        (colPairs (intRange nmin.Z nmax.Z) (intRange nmin.X nmax.X))) := by
  unfold sunPhase
  rw [nested_sunFold_eq_pairs]
  conv_lhs => rw [show w = overlayLit w (fun _ => false) from (overlayLit_false w).symm]
  rw [sunFold_pairs_char d wl nmin nmax w _ (fun _ => false)
    (fun q hq => absurd hq (by simp))]
  apply congrArg (overlayLit w)
  funext q
  simp

theorem sunPhase_content (d : NodeDef) (wl : Int) (w : World) (nmin nmax : v3s16)
    (q : v3s16) : ((sunPhase d wl w nmin nmax) q).content = (w q).content := by
  rw [sunPhase_char]
  exact overlayLit_content w _ q

theorem sunPhase_idem (d : NodeDef) (wl : Int) (w : World) (nmin nmax : v3s16) :
    sunPhase d wl (sunPhase d wl w nmin nmax) nmin nmax = sunPhase d wl w nmin nmax := by
  rw [sunPhase_char d wl (sunPhase d wl w nmin nmax) nmin nmax]
  have hbound : ∀ q, litAnyB d wl w nmin nmax
      (colPairs (intRange nmin.Z nmax.Z) (intRange nmin.X nmax.X)) q = true →
      q.Y ≤ nmax.Y :=
    fun q hq => litAnyB_y_le d wl w nmin nmax _ q hq
  have hfun : litAnyB d wl (sunPhase d wl w nmin nmax) nmin nmax
      (colPairs (intRange nmin.Z nmax.Z) (intRange nmin.X nmax.X)) =
      litAnyB d wl w nmin nmax
      (colPairs (intRange nmin.Z nmax.Z) (intRange nmin.X nmax.X)) := by
    funext q
    refine litAnyB_congr d wl nmin nmax _ w ?_ ?_ _ q
    · exact fun q' => sunPhase_content d wl w nmin nmax q'
    · intro x z
      rw [sunPhase_char]
      exact overlayLit_above w _ nmax hbound x z
  rw [hfun]
  rw [sunPhase_char d wl w nmin nmax]
  funext q
  unfold overlayLit
  cases hb : litAnyB d wl w nmin nmax
      (colPairs (intRange nmin.Z nmax.Z) (intRange nmin.X nmax.X)) q <;> simp [hb]

/-- C5: in `calcLighting`'s sun-shafting stage, a column whose above-top node
is `CONTENT_IGNORE` while the region's top edge lies below the water level
(so the block counts as underground) receives no sunlight at all: every node
of that column is left exactly as it was. -/
theorem sunPhase_skips_underground_ignore (d : NodeDef) (wl : Int) (w : World)
    (nmin nmax : v3s16) (x z : Int) (hub : nmax.Y < wl)
    (hig : (w ⟨x, nmax.Y + 1, z⟩).content = CONTENT_IGNORE) :
    ∀ y, sunPhase d wl w nmin nmax ⟨x, y, z⟩ = w ⟨x, y, z⟩ := by
  intro y
  rw [sunPhase_char]
  unfold overlayLit
  rw [if_neg ?_]
  intro h
  obtain ⟨xz, _, hxz⟩ := List.any_eq_true.mp h
  simp only [colLitB, Bool.and_eq_true, decide_eq_true_eq] at hxz
  obtain ⟨⟨⟨⟨⟨hopen, hx⟩, hz⟩, -⟩, -⟩, -⟩ := hxz
  have hx' : xz.1 = x := hx.symm
  have hz' : xz.2 = z := hz.symm
  rw [hx', hz'] at hopen
  unfold sunOpenCond at hopen
  rw [if_pos hig] at hopen
  have := of_decide_eq_true hopen
  omega

/-- Witness for C5: an all-`CONTENT_IGNORE` buffer with the region top below
water level keeps its column `(0, 0)` untouched by the sun stage. -/
theorem sunPhase_skips_underground_ignore_witness :
    sunPhase dEx 9 wIgnore ⟨0, 0, 0⟩ ⟨1, 1, 1⟩ ⟨0, 1, 0⟩ = wIgnore ⟨0, 1, 0⟩ :=
  sunPhase_skips_underground_ignore dEx 9 wIgnore ⟨0, 0, 0⟩ ⟨1, 1, 1⟩ 0 0
    (by decide) (by decide) 1

theorem foldl_id {α β : Type} (g : β → α → β) (w : β) :
    ∀ (l : List α), (∀ i ∈ l, g w i = w) → l.foldl g w = w := by
  intro l
  induction l with
  | nil =>
    intro _
    rfl
  | cons i l ih =>
    intro h
    rw [List.foldl_cons, h i (List.mem_cons_self i l)]
    exact ih (fun j hj => h j (List.mem_cons_of_mem i hj))

theorem spreadAtNode_skip (a : VoxelArea) (d : NodeDef) (w : World) (p : v3s16)
    (h : (d (w p).content).light_propagates = false) : spreadAtNode a d w p = w := by
  unfold spreadAtNode
  rw [if_pos (Or.inr h)]

theorem contains_of_bounds (nmin nmax : v3s16) (x y z : Int)
    (hx1 : nmin.X ≤ x) (hx2 : x ≤ nmax.X) (hy1 : nmin.Y ≤ y) (hy2 : y ≤ nmax.Y)
    (hz1 : nmin.Z ≤ z) (hz2 : z ≤ nmax.Z) :
    (⟨nmin, nmax⟩ : VoxelArea).contains ⟨x, y, z⟩ = true := by
  unfold VoxelArea.contains
  simp only [Bool.and_eq_true, decide_eq_true_eq]
  exact ⟨⟨⟨⟨⟨hx1, hx2⟩, hy1⟩, hy2⟩, hz1⟩, hz2⟩

theorem spreadPhase_inert (a : VoxelArea) (d : NodeDef) (w : World) (nmin nmax : v3s16)
    (h : ∀ p, (⟨nmin, nmax⟩ : VoxelArea).contains p = true →
      (d (w p).content).light_propagates = false) :
    spreadPhase a d w nmin nmax = w := by
  unfold spreadPhase
  refine foldl_id _ w _ ?_
  intro z hz
  refine foldl_id _ w _ ?_
  intro y hy
  refine foldl_id _ w _ ?_
  intro x hx
  have hxm := mem_intRange.mp hx
  have hym := mem_intRange.mp hy
  have hzm := mem_intRange.mp hz
  exact spreadAtNode_skip a d w ⟨x, y, z⟩
    (h ⟨x, y, z⟩ (contains_of_bounds nmin nmax x y z
      hxm.1 hxm.2 hym.1 hym.2 hzm.1 hzm.2))

/-- C3 (amended): on a region none of whose nodes propagates light, the
emission-and-spread stage is inert and `calcLighting` reduces to the sun
stage, which is idempotent — so running `calcLighting` twice equals running
it once.  On general regions the fixed-point claim fails (see the
counterexample): a light-source node's unconditional emission overwrite can
lower a value that neighbor spread set, and the second run re-spreads
differently. -/
theorem calcLighting_idempotent_no_propagation (d : NodeDef) (wl : Int) (w : World)
    (nmin nmax : v3s16)
    (h : ∀ p, (⟨nmin, nmax⟩ : VoxelArea).contains p = true →
      (d (w p).content).light_propagates = false) :
    calcLighting d wl (calcLighting d wl w nmin nmax) nmin nmax =
      calcLighting d wl w nmin nmax := by
  have h1 : ∀ p, (⟨nmin, nmax⟩ : VoxelArea).contains p = true →
      (d ((sunPhase d wl w nmin nmax) p).content).light_propagates = false := by
    intro p hp
    rw [sunPhase_content]
    exact h p hp
  have hcalc : calcLighting d wl w nmin nmax = sunPhase d wl w nmin nmax := by
    unfold calcLighting
    exact spreadPhase_inert _ d _ nmin nmax h1
  rw [hcalc]
  have h2 : ∀ p, (⟨nmin, nmax⟩ : VoxelArea).contains p = true →
      (d ((sunPhase d wl (sunPhase d wl w nmin nmax) nmin nmax) p).content).light_propagates
        = false := by
    intro p hp
    rw [sunPhase_content, sunPhase_content]
    exact h p hp
  unfold calcLighting
  rw [spreadPhase_inert _ d _ nmin nmax h2]
  exact sunPhase_idem d wl w nmin nmax

/-- Witness for C3 (amended): an all-air region (air neither propagates light
nor holds sources) is a fixed point of a second `calcLighting` run. -/
theorem calcLighting_idempotent_no_propagation_witness :
    calcLighting dEx 0 (calcLighting dEx 0 wAir ⟨0, 0, 0⟩ ⟨1, 1, 1⟩) ⟨0, 0, 0⟩ ⟨1, 1, 1⟩ =
      calcLighting dEx 0 wAir ⟨0, 0, 0⟩ ⟨1, 1, 1⟩ :=
  calcLighting_idempotent_no_propagation dEx 0 wAir ⟨0, 0, 0⟩ ⟨1, 1, 1⟩
    (fun _ _ => rfl)

/-- C3 counterexample: `calcLighting` is not idempotent.  On a three-node line
holding a level-2 source, a plain propagating node and a level-15 source, the
first run leaves light 12 at the origin but a second run leaves 11: the
level-2 source's unconditional emission overwrite drops the origin to 2, and
the rerun's neighbor spread only restores 11 where the first run's deeper
recursion had written 12. -/
theorem calcLighting_not_idempotent_cex :
    ((calcLighting dEx 5 wC3 ⟨0, 0, 0⟩ ⟨2, 0, 0⟩) ⟨0, 0, 0⟩).param1 = 12 ∧
    ((calcLighting dEx 5 (calcLighting dEx 5 wC3 ⟨0, 0, 0⟩ ⟨2, 0, 0⟩)
        ⟨0, 0, 0⟩ ⟨2, 0, 0⟩) ⟨0, 0, 0⟩).param1 = 11 ∧
    (12 : Nat) ≠ 11 := by
  refine ⟨by decide, by decide, by omega⟩
